import Mathlib

/-
Verification of the scheduled publishing pipeline of the post-scheduling
repository: the per-page token store (src/src/lib/token-manager.ts), the
bounded retry policy and image upload of the publish executor
(src/src/lib/facebook-automation.ts), the page-navigation access check
(src/scripts/facebook-automation.js) and the polling scheduler
(src/src/lib/post-scheduler.ts).  Each TypeScript/JavaScript function is
embedded as a pure Lean function; promise rejection is modelled with
Except, the browser, network and storage effects are supplied as explicit
oracle parameters, and timestamps are naturals (milliseconds, as in
Date.now()).
-/

set_option autoImplicit false

namespace PubPipe

/-! ## TokenStore (src/src/lib/token-manager.ts)

The JS `Map<string, {token, expiresAt}>` is embedded as an association
list; `mapSet` removes any previous binding of the key and prepends the
new one, which is observationally equivalent to `Map.set` with respect to
`Map.get` and `Map.delete`.  `localStorage` is embedded as a `StoredBlob`:
`absent` (no item), `valid entries` (a JSON document that parses to the
given key-value entries) or `corrupt` (an item on which JSON.parse
throws).  `localStorage.setItem` can itself throw; the Bool argument
`persistOk` of the operations says whether it succeeds. -/

structure TokenInfo where
  token : String
  expiresAt : Nat
deriving DecidableEq, Repr

abbrev TokenMap := List (String × TokenInfo)

def mapGet (m : TokenMap) (k : String) : Option TokenInfo :=
  (m.find? (fun kv => kv.1 == k)).map (fun kv => kv.2)

def mapDelete (m : TokenMap) (k : String) : TokenMap :=
  m.filter (fun kv => kv.1 != k)

def mapSet (m : TokenMap) (k : String) (v : TokenInfo) : TokenMap :=
  (k, v) :: mapDelete m k

inductive StoredBlob where
  | absent
  | valid (entries : TokenMap)
  | corrupt
deriving DecidableEq, Repr

/-- Lookup of a page id inside the persisted copy of the token cache. -/
def blobLookup (b : StoredBlob) (k : String) : Option TokenInfo :=
  match b with
  | .valid m => mapGet m k
  | _ => none

structure TokenManagerState where
  tokens : TokenMap
  storage : StoredBlob
deriving DecidableEq, Repr

/-- The body of `loadTokens` before its catch clause: `getItem` followed by
`JSON.parse` followed by a forEach of `Map.set` over the parsed entries.
A corrupt blob makes `JSON.parse` throw. -/
def loadTokensBody (storage : StoredBlob) : Except String TokenMap :=
  match storage with
  | .absent => Except.ok []
  | .valid entries =>
      Except.ok (entries.foldl (fun m kv => mapSet m kv.1 kv.2) [])
  | .corrupt => Except.error "Unexpected token in JSON"

/-- `TokenManager.loadTokens` (run by the constructor on a fresh empty
map): on any error the catch clause logs, removes the persisted item and
returns normally with the map left empty. -/
def loadTokens (storage : StoredBlob) : TokenManagerState :=
  match loadTokensBody storage with
  | .ok m => { tokens := m, storage := storage }
  | .error _ => { tokens := [], storage := StoredBlob.absent }

/-- `localStorage.setItem` of the serialized token map: succeeds or
throws, according to `persistOk`. -/
def setItem (persistOk : Bool) (m : TokenMap) : Except String StoredBlob :=
  if persistOk then Except.ok (StoredBlob.valid m) else Except.error "Failed to save tokens"

/-- `TokenManager.saveTokens`: tries to persist the current map; its catch
clause swallows the setItem error (log only), leaving the persisted copy
unchanged.  It therefore never throws. -/
def saveTokens (persistOk : Bool) (s : TokenManagerState) : TokenManagerState :=
  match setItem persistOk s.tokens with
  | .ok b => { tokens := s.tokens, storage := b }
  | .error _ => s

/-- `TokenManager.setToken pageId token expiresIn` at current time `now`:
stores `expiresAt = now + expiresIn * 1000` in the map and calls
`saveTokens`.  Total, because the only fallible step is inside
`saveTokens`, whose catch clause handles it. -/
def setToken (persistOk : Bool) (now : Nat) (pageId token : String) (expiresIn : Nat)
    (s : TokenManagerState) : TokenManagerState :=
  saveTokens persistOk
    { tokens := mapSet s.tokens pageId { token := token, expiresAt := now + expiresIn * 1000 }
      storage := s.storage }

/-- `TokenManager.getToken pageId` at current time `now`: absent key gives
null; an entry with `now >= expiresAt` is deleted, the deletion is
persisted, and null is returned; otherwise the token is returned. -/
def getToken (persistOk : Bool) (now : Nat) (pageId : String)
    (s : TokenManagerState) : Option String × TokenManagerState :=
  match mapGet s.tokens pageId with
  | none => (none, s)
  | some info =>
      if info.expiresAt ≤ now then
        (none, saveTokens persistOk { tokens := mapDelete s.tokens pageId, storage := s.storage })
      else
        (some info.token, s)

def emptyTMS : TokenManagerState := { tokens := [], storage := StoredBlob.absent }

/-! ## RetryPolicy (src/src/lib/facebook-automation.ts, `retry`)

```
for (let i = 0; i < attempts; i++) {
  try { return await fn(); }
  catch (error) {
    if (i === attempts - 1) throw error;
    await new Promise(resolve => setTimeout(resolve, CONFIG.retryDelay));
  }
}
throw new Error("Retry failed");
```

The operation is an oracle `op : Nat → Except String α` giving the result
of the i-th invocation.  `retryLoop` is structurally recursive on the
remaining number of iterations (`fuel = attempts - i`); the observable
trace of invocations and sleeps is returned alongside the result, so the
invocation count and the delay between attempts are provable facts. -/

inductive RetryEvent where
  | call (i : Nat)
  | sleep (d : Nat)
deriving DecidableEq, Repr

def retryLoop {α : Type} (op : Nat → Except String α) (delay : Nat) :
    Nat → Nat → Except String α × List RetryEvent
  | _, 0 => (Except.error "Retry failed", [])
  | i, fuel + 1 =>
      match op i with
      | .ok v => (Except.ok v, [RetryEvent.call i])
      | .error e =>
          if fuel = 0 then
            (Except.error e, [RetryEvent.call i])
          else
            let r := retryLoop op delay (i + 1) fuel
            (r.1, RetryEvent.call i :: RetryEvent.sleep delay :: r.2)

/-- `FacebookAutomation.retry fn attempts` with a fixed sleep of `delay`
between consecutive attempts. -/
def retry {α : Type} (op : Nat → Except String α) (delay attempts : Nat) :
    Except String α × List RetryEvent :=
  retryLoop op delay 0 attempts

/-- Number of operation invocations recorded in a trace. -/
def callsOf (evs : List RetryEvent) : Nat :=
  evs.countP (fun e => match e with | .call _ => true | _ => false)

/-- The canonical trace of `n` invocations starting at index `i`, with one
fixed-length sleep between consecutive invocations. -/
def retryTrace (delay : Nat) : Nat → Nat → List RetryEvent
  | _, 0 => []
  | i, 1 => [RetryEvent.call i]
  | i, n + 2 => RetryEvent.call i :: RetryEvent.sleep delay :: retryTrace delay (i + 1) (n + 1)

/-- Concrete operation for the scenario of the testable property: fails on
attempts 0 and 1, succeeds on attempt 2. -/
def opFailTwice : Nat → Except String Nat :=
  fun i => if i < 2 then Except.error "transient surface error" else Except.ok 7

/-! ## Page navigation and admin-access verification
(src/scripts/facebook-automation.js, `navigateToPage` /
`verifyPageAdminAccess`)

The relevant part of the page DOM is which of the probed selectors are
present.  `verifyPageAdminAccess` probes three admin-only selectors and
returns a Bool; its own catch clause turns any driver error into `false`,
so it never throws — consequently the `retry` wrapper around it in
`navigateToPage` invokes it exactly once. -/

structure PageDom where
  pageNotFound : Bool
  adminPageSettings : Bool
  adminPanel : Bool
  composerButton : Bool
deriving DecidableEq, Repr

def verifyPageAdminAccess (dom : PageDom) : Bool :=
  dom.adminPageSettings || dom.adminPanel || dom.composerButton

def retryAttempts : Nat := 3
def retryDelay : Nat := 5000

/-- `FacebookAutomation.navigateToPage`: navigate, check the not-found
marker, then `retry(verifyPageAdminAccess)`; a false verdict throws
`No admin access to the page`.  The second component is the number of
times `verifyPageAdminAccess` was invoked. -/
def navigateToPage (dom : PageDom) : Except String Unit × Nat :=
  if dom.pageNotFound then
    (Except.error "Page access denied or page not found", 0)
  else
    let r := retry (fun _ => Except.ok (verifyPageAdminAccess dom)) retryDelay retryAttempts
    let n := callsOf r.2
    match r.1 with
    | .ok true => (Except.ok (), n)
    | .ok false => (Except.error "No admin access to the page", n)
    | .error e => (Except.error e, n)

def deniedDom : PageDom :=
  { pageNotFound := false, adminPageSettings := false, adminPanel := false
    composerButton := false }

/-! ## Image upload (src/src/lib/facebook-automation.ts, `uploadImage`)

The filesystem state is the multiset of temp files present.  The oracle
records whether the file input is found, whether the fetch + writeFile of
the remote bytes succeeds, and whether `fileInput.uploadFile` succeeds.
The source has no `finally`: `fs.unlink(tempPath)` runs only after a
successful upload, and the catch clause logs and rethrows without
removing the file. -/

structure UploadEnv where
  inputFound : Bool
  fetchOk : Bool
  uploadOk : Bool
deriving DecidableEq, Repr

structure FsState where
  tempFiles : List String
deriving DecidableEq, Repr

def uploadImage (env : UploadEnv) (tmp : String) (fs : FsState) :
    Except String Unit × FsState :=
  if !env.inputFound then
    (Except.error "Image upload input not found", fs)
  else if !env.fetchOk then
    (Except.error "fetch failed", fs)
  else
    let fs1 : FsState := { tempFiles := tmp :: fs.tempFiles }
    if env.uploadOk then
      (Except.ok (), { tempFiles := fs1.tempFiles.filter (fun f => f != tmp) })
    else
      (Except.error "Failed to upload image", fs1)

/-! ## Scheduler (src/src/lib/post-scheduler.ts)

Posts as stored in the `posts` table, with their target pages.  The
repository uses supabase-js v2 (flowType, signInWithPassword,
signInWithOAuth), whose postgrest awaits always resolve and report
errors inside the returned value; `processScheduledPost` discards both
update results, so a failed write is silently ignored and no update
await can ever reject.  Whether each such fire-and-forget write actually
applied server-side is the `updateOk` oracle.  The publish step is the
`publish` oracle; the facebook module itself (src/lib/facebook.ts, the
FacebookAuth class) defines no `publishPost`, so the call the scheduler
makes always rejects with a TypeError — `publishPostReal` below is the
actual behavior, while theorems that quantify over `publish` describe
the branch structure of the scheduler for any callee. -/

inductive PostStatus where
  | draft
  | scheduled
  | published
  | failed
deriving DecidableEq, Repr

structure SPost where
  id : Nat
  status : PostStatus
  scheduledFor : Nat
  error : Option String
  pages : List Nat
  updatedAt : Nat
deriving DecidableEq, Repr

abbrev Db := List SPost

structure SchedEnv where
  publish : SPost → Except String Unit
  updateOk : Nat → PostStatus → Bool

/-- Calling the missing method: `facebookAuth.publishPost` does not exist
on the FacebookAuth class (it exports initialize, login, getUserInfo,
getPages, logout, verifyPageAccess only), so the call inside the
scheduler always rejects with a TypeError. -/
def publishPostReal : SPost → Except String Unit :=
  fun _ => Except.error "facebookAuth.publishPost is not a function"

/-- The scheduler environment of the program as it stands: the publish
call rejects with the TypeError, and `wb` says which ignored writes
apply. -/
def realSchedEnv (wb : Nat → PostStatus → Bool) : SchedEnv :=
  { publish := publishPostReal, updateOk := wb }

/-- The effect of a supabase update write keyed by post id, when it
applies: the published write does not touch `error`, the failed write
sets it; both stamp `updated_at`. -/
def dbUpdate (db : Db) (pid : Nat) (st : PostStatus) (err : Option String) (now : Nat) : Db :=
  db.map (fun p =>
    if p.id == pid then
      { p with
        status := st
        updatedAt := now
        error := match err with | some e => some e | none => p.error }
    else p)

/-- `PostScheduler.processScheduledPost`: publish inside try; on success
write `published`, on rejection the catch clause writes `failed` with the
error message.  Both update awaits resolve regardless of write success
and their results are discarded, so a write that fails server-side
changes nothing and execution continues silently (the post is left as it
was, typically still `scheduled`); the analytics insert has its own
catch.  The function is total: no rejection can escape it. -/
def processScheduledPost (env : SchedEnv) (now : Nat) (db : Db) (post : SPost) : Db :=
  match env.publish post with
  | .ok _ =>
      if env.updateOk post.id PostStatus.published then
        dbUpdate db post.id PostStatus.published none now
      else db
  | .error e =>
      if env.updateOk post.id PostStatus.failed then
        dbUpdate db post.id PostStatus.failed (some e) now
      else db

/-- The tick query: status equals scheduled AND scheduled_for at or
before now. -/
def selectDue (db : Db) (now : Nat) : List SPost :=
  db.filter (fun p => decide (p.status = PostStatus.scheduled ∧ p.scheduledFor ≤ now))

structure TickResult where
  db : Db
  processed : List Nat
deriving DecidableEq, Repr

/-- The `for (const post of posts)` loop of `checkScheduledPosts`:
`processScheduledPost` is total, so the loop always reaches every due
post.  `processed` records the ids for which `processScheduledPost`
ran. -/
def processLoop (env : SchedEnv) (now : Nat) : List SPost → Db → TickResult
  | [], db => { db := db, processed := [] }
  | p :: rest, db =>
      let db2 := processScheduledPost env now db p
      let r := processLoop env now rest db2
      { db := r.db, processed := p.id :: r.processed }

/-- `PostScheduler.checkScheduledPosts`: query the due posts (the one
await whose error the source checks and throws is the query itself,
guarded by the tick-level try/catch that only logs), then process each in
order.  The tick never throws to the timer. -/
def checkScheduledPosts (env : SchedEnv) (now : Nat) (db : Db) : TickResult :=
  processLoop env now (selectDue db now) db

/-- Ids dispatched (handed to `processScheduledPost`) by a tick reading
database state `db` at time `now`.  Selection is a function of the
database alone: the scheduler object has no in-flight marker (its only
fields are the interval length and the timer id). -/
def tickSelectsIds (db : Db) (now : Nat) : List Nat :=
  (selectDue db now).map SPost.id

/-- `start()` awaits one immediate check and then hands
`checkScheduledPosts` to `setInterval` WITHOUT awaiting it, so a tick
whose publishes outlast the interval overlaps the next tick.  With no
in-flight marker, the overlapping tick reads the same database state
(the first tick has not written back yet): these are the ids dispatched
across two such overlapping ticks. -/
def overlappedTickDispatches (db : Db) (t1 t2 : Nat) : List Nat :=
  tickSelectsIds db t1 ++ tickSelectsIds db t2

/-- Tick times produced by `start()` with interval `c`: one immediate
check, then `setInterval` firings. -/
def tickTimes (c : Nat) (n : Nat) : List Nat :=
  0 :: (List.range n).map (fun k => (k + 1) * c)

/-! ## Spec-side publish outcome rollup (§3 and §8 of the design)

Modelled from the spec: the per-target `PublishOutcome` type and the
post-level rollup it prescribes — `published` iff all outcomes are
`Published`, `failed` iff some outcome is a terminal failure, otherwise
the post remains `scheduled`.  The pipeline sources have no such type;
this definition exists only to compare the prescribed rollup with what
`processScheduledPost` actually does. -/

inductive PublishOutcome where
  | Published
  | RetryableFailure (reason : String)
  | TerminalFailure (reason : String)
deriving DecidableEq, Repr

def isPublishedOutcome : PublishOutcome → Bool
  | .Published => true
  | _ => false

def isTerminalOutcome : PublishOutcome → Bool
  | .TerminalFailure _ => true
  | _ => false

/-- Modelled from the spec: post-level status rollup over the per-page
outcomes. -/
def specRollup (outcomes : List PublishOutcome) : PostStatus :=
  if outcomes.all isPublishedOutcome then PostStatus.published
  else if outcomes.any isTerminalOutcome then PostStatus.failed
  else PostStatus.scheduled

/-! Concrete fixtures for counterexamples. -/

def cxPost : SPost :=
  { id := 1, status := PostStatus.scheduled, scheduledFor := 50, error := none
    pages := [10, 20], updatedAt := 0 }

def cxPostB : SPost :=
  { id := 2, status := PostStatus.scheduled, scheduledFor := 60, error := none
    pages := [10], updatedAt := 0 }

/-- Environment in which the sole publish attempt rejects with a reason
the failure-classification policy calls retryable (a transient navigation
timeout), and every fire-and-forget database write applies. -/
def cxEnvRetryable : SchedEnv :=
  { publish := fun _ => Except.error "Navigation timeout"
    updateOk := fun _ _ => true }

/-! ## Helper lemmas: association-list map -/

theorem mapGet_mapSet_self (m : TokenMap) (k : String) (v : TokenInfo) :
    mapGet (mapSet m k v) k = some v := by
  simp [mapGet, mapSet, List.find?_cons]

theorem find?_filter_of_imp {α : Type} (l : List α) (p q : α → Bool)
    (h : ∀ x, p x = true → q x = true) :
    (l.filter q).find? p = l.find? p := by
  induction l with
  | nil => rfl
  | cons a rest ih =>
    rw [List.filter_cons]
    by_cases hq : q a = true
    · rw [if_pos hq]
      cases hp : p a with
      | true => rw [List.find?_cons_of_pos _ hp, List.find?_cons_of_pos _ hp]
      | false => rw [List.find?_cons_of_neg _ (by simp [hp]), List.find?_cons_of_neg _ (by simp [hp]), ih]
    · rw [if_neg hq]
      have hp : p a = false := by
        cases hpa : p a with
        | true => exact absurd (h a hpa) hq
        | false => rfl
      rw [List.find?_cons_of_neg _ (by simp [hp]), ih]

theorem mapGet_mapDelete_self (m : TokenMap) (k : String) :
    mapGet (mapDelete m k) k = none := by
  have h : (mapDelete m k).find? (fun kv => kv.1 == k) = none := by
    rw [List.find?_eq_none]
    intro kv hkv
    rw [mapDelete, List.mem_filter] at hkv
    simpa using hkv.2
  rw [mapGet, h]
  rfl

theorem mapGet_mapSet_ne (m : TokenMap) (k1 : String) (v : TokenInfo) (k2 : String)
    (h : k1 ≠ k2) : mapGet (mapSet m k1 v) k2 = mapGet m k2 := by
  rw [mapSet, mapGet, mapGet, List.find?_cons_of_neg _ (by simpa using h), mapDelete]
  rw [find?_filter_of_imp m _ _ (fun kv hkv => by
    simp only [beq_iff_eq] at hkv
    simpa [hkv] using fun heq => h heq.symm)]

theorem mapGet_foldl_not_mem (l : TokenMap) (m0 : TokenMap) (k : String)
    (h : ∀ kv ∈ l, kv.1 ≠ k) :
    mapGet (l.foldl (fun m x => mapSet m x.1 x.2) m0) k = mapGet m0 k := by
  induction l generalizing m0 with
  | nil => rfl
  | cons kv rest ih =>
    rw [List.foldl_cons, ih _ (fun x hx => h x (List.mem_cons_of_mem kv hx))]
    exact mapGet_mapSet_ne m0 kv.1 kv.2 k (h kv (List.mem_cons_self kv rest))

theorem mapGet_foldl_mem (l : TokenMap) :
    ∀ m0 : TokenMap, (l.map Prod.fst).Nodup →
      ∀ kv ∈ l, mapGet (l.foldl (fun m x => mapSet m x.1 x.2) m0) kv.1 = some kv.2 := by
  induction l with
  | nil => intro m0 _ kv hkv; cases hkv
  | cons a rest ih =>
    intro m0 hnd kv hkv
    rw [List.foldl_cons]
    rcases List.mem_cons.mp hkv with heq | hmem
    · subst heq
      rw [List.map_cons, List.nodup_cons] at hnd
      have hnot : ∀ x ∈ rest, x.1 ≠ kv.1 := by
        intro x hx heq2
        exact hnd.1 (by rw [← heq2]; exact List.mem_map_of_mem Prod.fst hx)
      rw [mapGet_foldl_not_mem rest _ kv.1 hnot]
      exact mapGet_mapSet_self m0 kv.1 kv.2
    · exact ih (mapSet m0 a.1 a.2)
        (by rw [List.map_cons, List.nodup_cons] at hnd; exact hnd.2) kv hmem

theorem setToken_tokens (po : Bool) (now : Nat) (pid tok : String) (t : Nat)
    (s : TokenManagerState) :
    (setToken po now pid tok t s).tokens
      = mapSet s.tokens pid { token := tok, expiresAt := now + t * 1000 } := by
  cases po <;> rfl

theorem saveTokens_tokens (po : Bool) (s : TokenManagerState) :
    (saveTokens po s).tokens = s.tokens := by
  cases po <;> rfl

theorem saveTokens_storage_true (s : TokenManagerState) :
    (saveTokens true s).storage = StoredBlob.valid s.tokens := rfl

/-- Running `getToken` after `setToken` once the ttl has elapsed: the
expired entry is deleted and the deletion handed to `saveTokens`. -/
theorem getToken_after_set (po : Bool) (now eps t : Nat) (pid tok : String)
    (s : TokenManagerState) :
    getToken po (now + t * 1000 + eps) pid (setToken po now pid tok t s)
    = (none, saveTokens po
        { tokens := mapDelete (mapSet s.tokens pid
            { token := tok, expiresAt := now + t * 1000 }) pid
          storage := (setToken po now pid tok t s).storage }) := by
  cases po <;>
    simp [setToken, saveTokens, setItem, getToken, mapGet_mapSet_self, Nat.le_add_right]

/-! ## Helper lemmas: the retry loop -/

theorem callsOf_retryTrace (delay : Nat) :
    ∀ n i, callsOf (retryTrace delay i n) = n := by
  intro n
  induction n using Nat.strong_induction_on with
  | _ n ih =>
    intro i
    match n with
    | 0 => rfl
    | 1 => rfl
    | m + 2 =>
      have h := ih (m + 1) (by omega) (i + 1)
      simp [retryTrace, callsOf, List.countP_cons] at h ⊢
      omega

theorem retryLoop_step {α : Type} (op : Nat → Except String α) (delay i f : Nat) (e : String)
    (he : op i = Except.error e) :
    retryLoop op delay i (f + 1 + 1)
      = ((retryLoop op delay (i + 1) (f + 1)).1,
         RetryEvent.call i :: RetryEvent.sleep delay :: (retryLoop op delay (i + 1) (f + 1)).2) := by
  conv_lhs => rw [retryLoop]
  rw [he]
  simp

theorem retryLoop_ok {α : Type} (op : Nat → Except String α) (delay : Nat) :
    ∀ fuel i k v, k < fuel → op (i + k) = Except.ok v →
      (∀ j, j < k → ∃ e, op (i + j) = Except.error e) →
      retryLoop op delay i fuel = (Except.ok v, retryTrace delay i (k + 1)) := by
  intro fuel
  induction fuel with
  | zero => intro i k v hk; exact absurd hk (Nat.not_lt_zero k)
  | succ f ih =>
    intro i k v hk hok hprev
    cases hcase : op i with
    | ok w =>
      have hk0 : k = 0 := by
        by_contra hne
        obtain ⟨e, he⟩ := hprev 0 (Nat.pos_of_ne_zero hne)
        rw [Nat.add_zero, hcase] at he
        cases he
      subst hk0
      rw [Nat.add_zero, hcase] at hok
      injection hok with hv
      subst hv
      simp [retryLoop, hcase, retryTrace]
    | error e =>
      cases k with
      | zero =>
        rw [Nat.add_zero, hcase] at hok
        cases hok
      | succ k2 =>
        have hf : f ≠ 0 := by omega
        have harg : i + (k2 + 1) = (i + 1) + k2 := by omega
        have ihs := ih (i + 1) k2 v (by omega) (by rw [← harg]; exact hok)
          (fun j hj => by
            obtain ⟨e2, he2⟩ := hprev (j + 1) (by omega)
            exact ⟨e2, by have h12 : i + (j + 1) = (i + 1) + j := by omega
                          rw [h12] at he2; exact he2⟩)
        simp [retryLoop, hcase, hf, ihs, retryTrace]

theorem retryLoop_err {α : Type} (op : Nat → Except String α) (delay : Nat) :
    ∀ fuel i, 1 ≤ fuel → (∀ j, j < fuel → ∃ e, op (i + j) = Except.error e) →
      ∃ e, op (i + (fuel - 1)) = Except.error e ∧
        retryLoop op delay i fuel = (Except.error e, retryTrace delay i fuel) := by
  intro fuel
  induction fuel with
  | zero => intro i h; omega
  | succ f ih =>
    intro i _ hall
    obtain ⟨e0, he0⟩ := hall 0 (Nat.succ_pos f)
    rw [Nat.add_zero] at he0
    cases f with
    | zero => exact ⟨e0, by simpa using he0, by simp [retryLoop, he0, retryTrace]⟩
    | succ f2 =>
      obtain ⟨e, he, hr⟩ := ih (i + 1) (by omega) (fun j hj => by
        obtain ⟨e2, he2⟩ := hall (j + 1) (by omega)
        exact ⟨e2, by have h12 : i + (j + 1) = (i + 1) + j := by omega
                      rw [h12] at he2; exact he2⟩)
      refine ⟨e, ?_, ?_⟩
      · have h13 : (i + 1) + (f2 + 1 - 1) = i + (f2 + 1 + 1 - 1) := by omega
        rw [h13] at he
        exact he
      · rw [retryLoop_step op delay i f2 e0 he0, hr]
        simp [retryTrace]

theorem retryLoop_trace {α : Type} (op : Nat → Except String α) (delay : Nat) :
    ∀ fuel i, ∃ n, n ≤ fuel ∧ (1 ≤ fuel → 1 ≤ n) ∧
      (retryLoop op delay i fuel).2 = retryTrace delay i n := by
  intro fuel
  induction fuel with
  | zero => intro i; exact ⟨0, le_rfl, by omega, rfl⟩
  | succ f ih =>
    intro i
    cases hcase : op i with
    | ok v => exact ⟨1, by omega, fun _ => le_rfl, by simp [retryLoop, hcase, retryTrace]⟩
    | error e =>
      cases f with
      | zero => exact ⟨1, le_rfl, fun _ => le_rfl, by simp [retryLoop, hcase, retryTrace]⟩
      | succ f2 =>
        obtain ⟨n, hn, hn1, htr⟩ := ih (i + 1)
        have hn2 := hn1 (by omega)
        cases n with
        | zero => omega
        | succ m =>
          refine ⟨m + 2, by omega, by omega, ?_⟩
          rw [retryLoop_step op delay i f2 e hcase]
          simp [htr, retryTrace]

/-! ## Helper lemmas: scheduler -/

/-- The tick loop runs `processScheduledPost` for every post of its list,
whatever the environment does: the per-post body is total. -/
theorem processLoop_processed (env : SchedEnv) (now : Nat) :
    ∀ (l : List SPost) (db : Db),
      (processLoop env now l db).processed = l.map SPost.id := by
  intro l
  induction l with
  | nil => intro db; rfl
  | cons p rest ih =>
    intro db
    simp only [processLoop, List.map_cons]
    rw [ih]

/-! ## Claim theorems -/

/-- Claim C3 (confirmed).  The retry wrapper invokes the operation at most
`attempts` times with one fixed-length sleep of `delay` between
consecutive invocations (the trace equals `retryTrace delay 0 n` for some
`1 <= n <= attempts`), returns the first successful result — with exactly
`k + 1` invocations when the first success is attempt `k` — and, when all
`attempts` attempts fail, propagates the error of the final attempt. -/
theorem retryPolicy_spec {α : Type} (op : Nat → Except String α) (delay attempts : Nat)
    (h : 1 ≤ attempts) :
    (∃ n, 1 ≤ n ∧ n ≤ attempts ∧ (retry op delay attempts).2 = retryTrace delay 0 n
        ∧ callsOf (retry op delay attempts).2 = n)
    ∧ (∀ k v, k < attempts → op k = Except.ok v →
        (∀ j, j < k → ∃ e, op j = Except.error e) →
        retry op delay attempts = (Except.ok v, retryTrace delay 0 (k + 1)))
    ∧ ((∀ j, j < attempts → ∃ e, op j = Except.error e) →
        ∃ e, op (attempts - 1) = Except.error e ∧
          retry op delay attempts = (Except.error e, retryTrace delay 0 attempts)) := by
  refine ⟨?_, ?_, ?_⟩
  · obtain ⟨n, hn, hn1, htr⟩ := retryLoop_trace op delay attempts 0
    refine ⟨n, hn1 h, hn, htr, ?_⟩
    rw [retry, htr, callsOf_retryTrace]
  · intro k v hk hok hprev
    have hres := retryLoop_ok op delay attempts 0 k v hk (by simpa using hok)
      (fun j hj => by simpa using hprev j hj)
    simpa [retry] using hres
  · intro hall
    obtain ⟨e, he, hr⟩ := retryLoop_err op delay attempts 0 h
      (fun j hj => by simpa using hall j hj)
    exact ⟨e, by simpa using he, by simpa [retry] using hr⟩

/-- Witness for C3: with `maxAttempts = 3` and an operation that fails
twice then succeeds, the retry wrapper returns the success result after
exactly 3 invocations. -/
theorem retryPolicy_spec_witness :
    retry opFailTwice retryDelay 3 = (Except.ok 7, retryTrace retryDelay 0 3)
    ∧ callsOf (retry opFailTwice retryDelay 3).2 = 3 := by
  have h := (retryPolicy_spec opFailTwice retryDelay 3 (by norm_num)).2.1 2 7 (by norm_num)
    rfl (fun j hj => ⟨"transient surface error", by interval_cases j <;> rfl⟩)
  exact ⟨h, by rw [h]; rfl⟩

/-- Claim C5 (confirmed).  When the target page is reachable but none of
the three admin-only control elements is present, `navigateToPage` throws
the access-denied error having invoked `verifyPageAdminAccess` exactly
once: the verification returns false instead of throwing, so the `retry`
wrapper around it performs no further attempt and no retry budget is
consumed; the error escalates directly to the caller. -/
theorem accessDenied_not_retried (dom : PageDom)
    (hnf : dom.pageNotFound = false)
    (h1 : dom.adminPageSettings = false) (h2 : dom.adminPanel = false)
    (h3 : dom.composerButton = false) :
    navigateToPage dom = (Except.error "No admin access to the page", 1) := by
  have hv : verifyPageAdminAccess dom = false := by
    simp [verifyPageAdminAccess, h1, h2, h3]
  simp only [navigateToPage, hnf, hv]
  rfl

/-- Witness for C5 at a concrete page state with no admin affordance. -/
theorem accessDenied_not_retried_witness :
    navigateToPage deniedDom = (Except.error "No admin access to the page", 1) :=
  accessDenied_not_retried deniedDom rfl rfl rfl rfl

/-- Claim C2 (confirmed).  `getToken` never returns a credential whose
expiry instant is at or before the current time; setting a token with ttl
`t` seconds and reading it back at `now + t * 1000 + eps` milliseconds
yields absent, the expired entry is purged from the in-memory store, and
(when persistence succeeds) from the persisted copy as well. -/
theorem tokenStore_get_expiry (po : Bool) (s : TokenManagerState) (now eps t : Nat)
    (pid tok : String) :
    (∀ r, (getToken po now pid s).1 = some r →
        ∃ info, mapGet s.tokens pid = some info ∧ info.token = r ∧ now < info.expiresAt)
    ∧ (getToken po (now + t * 1000 + eps) pid (setToken po now pid tok t s)).1 = none
    ∧ mapGet ((getToken po (now + t * 1000 + eps) pid
        (setToken po now pid tok t s)).2).tokens pid = none
    ∧ (po = true →
        blobLookup ((getToken po (now + t * 1000 + eps) pid
          (setToken po now pid tok t s)).2).storage pid = none) := by
  refine ⟨?_, ?_, ?_, ?_⟩
  · intro r hr
    rw [getToken] at hr
    rcases hm : mapGet s.tokens pid with _ | info
    · rw [hm] at hr
      exact absurd hr (by simp)
    · rw [hm] at hr
      by_cases hexp : info.expiresAt ≤ now
      · simp [hexp] at hr
      · simp [hexp] at hr
        exact ⟨info, rfl, hr, not_le.mp hexp⟩
  · rw [getToken_after_set]
  · rw [getToken_after_set]
    rw [saveTokens_tokens]
    exact mapGet_mapDelete_self _ _
  · intro hpo
    subst hpo
    rw [getToken_after_set, saveTokens_storage_true]
    exact mapGet_mapDelete_self _ _

/-- Witness for C2: a token stored at time 0 with a 60 second ttl is
absent one millisecond after the ttl elapses. -/
theorem tokenStore_get_expiry_witness :
    (getToken true (0 + 60 * 1000 + 1) "pageA"
      (setToken true 0 "pageA" "secret" 60 emptyTMS)).1 = none :=
  (tokenStore_get_expiry true emptyTMS 0 1 60 "pageA" "secret").2.1

/-- Claim C7 (confirmed).  A corrupt persisted blob makes the parse throw;
the catch clause discards the whole cache (the store starts empty and the
persisted item is removed) without the error reaching the caller, while a
valid blob restores every stored entry. -/
theorem loadTokens_failsafe :
    loadTokensBody StoredBlob.corrupt = Except.error "Unexpected token in JSON"
    ∧ loadTokens StoredBlob.corrupt = { tokens := [], storage := StoredBlob.absent }
    ∧ ∀ entries : TokenMap, (entries.map Prod.fst).Nodup →
        ∀ kv ∈ entries,
          mapGet (loadTokens (StoredBlob.valid entries)).tokens kv.1 = some kv.2 := by
  refine ⟨rfl, rfl, ?_⟩
  intro entries hnd kv hkv
  show mapGet (entries.foldl (fun m x => mapSet m x.1 x.2) []) kv.1 = some kv.2
  exact mapGet_foldl_mem entries [] hnd kv hkv

/-- Witness for C7 at a concrete one-entry blob. -/
theorem loadTokens_failsafe_witness :
    mapGet (loadTokens (StoredBlob.valid
      [("pageA", { token := "secret", expiresAt := 99 })])).tokens "pageA"
      = some { token := "secret", expiresAt := 99 } :=
  loadTokens_failsafe.2.2 [("pageA", { token := "secret", expiresAt := 99 })]
    (by simp) ("pageA", { token := "secret", expiresAt := 99 })
    (List.mem_singleton_self _)

/-- Claim C10 (confirmed).  When persisting the credential set fails,
`setToken` still returns normally (the error is consumed inside
`saveTokens`), the in-memory credential is recorded with
`expiresAt = now + ttl * 1000`, the persisted copy is simply left as it
was, and a `getToken` before the ttl elapses returns the token. -/
theorem setToken_persist_swallow (s : TokenManagerState) (now now2 t : Nat)
    (pid tok : String) (h : now2 < now + t * 1000) :
    mapGet (setToken false now pid tok t s).tokens pid
        = some { token := tok, expiresAt := now + t * 1000 }
    ∧ (setToken false now pid tok t s).storage = s.storage
    ∧ (getToken false now2 pid (setToken false now pid tok t s)).1 = some tok := by
  refine ⟨?_, rfl, ?_⟩
  · rw [setToken_tokens]
    exact mapGet_mapSet_self _ _ _
  · have hlt : ¬ (now + t * 1000 ≤ now2) := by omega
    simp [getToken, setToken_tokens, mapGet_mapSet_self, hlt]

/-- Witness for C10: persistence failing at store time, read back half way
through the ttl. -/
theorem setToken_persist_swallow_witness :
    (getToken false 30000 "pageA" (setToken false 0 "pageA" "secret" 60 emptyTMS)).1
      = some "secret" :=
  (setToken_persist_swallow emptyTMS 0 30000 60 "pageA" "secret" (by norm_num)).2.2

/-- Counterexample to claim C1 as stated.  The spec-side rollup says that
a post whose only outcome is a retryable failure (a transient navigation
timeout, no terminal failure, no retry exhaustion) remains `scheduled`;
`processScheduledPost` instead marks the post `failed` on any rejection of
its single `publishPost` call, writing one post-level status with no
per-page outcome anywhere. -/
theorem post_status_rollup_cx :
    specRollup [PublishOutcome.RetryableFailure "Navigation timeout"] = PostStatus.scheduled
    ∧ processScheduledPost cxEnvRetryable 100 [cxPost] cxPost =
        [{ id := 1, status := PostStatus.failed, scheduledFor := 50,
           error := some "Navigation timeout", pages := [10, 20],
           updatedAt := 100 }] :=
  ⟨rfl, rfl⟩

/-- Claim C1 (amended).  `processScheduledPost` collapses each post into a
single post-level status written blindly: whenever its lone `publishPost`
call rejects, the catch writes `failed` with the rejection message — for
any rejection reason, with no failure classification, no retry
exhaustion, and no per-page outcomes anywhere; when the ignored
fire-and-forget write does not apply server-side, nothing changes and the
post silently stays as it was (the unobservable way a processed post
remains `scheduled`).  In the program as it stands the publish call
always rejects with a TypeError, because the facebook module defines no
`publishPost`: a due post is marked `failed` whenever its write applies,
and never `published`. -/
theorem post_status_rollup (env : SchedEnv) (now : Nat) (db : Db) (p : SPost)
    (wb : Nat → PostStatus → Bool) :
    (∀ e, env.publish p = Except.error e → env.updateOk p.id PostStatus.failed = true →
        processScheduledPost env now db p
          = dbUpdate db p.id PostStatus.failed (some e) now)
    ∧ (∀ e, env.publish p = Except.error e → env.updateOk p.id PostStatus.failed = false →
        processScheduledPost env now db p = db)
    ∧ publishPostReal p = Except.error "facebookAuth.publishPost is not a function"
    ∧ processScheduledPost (realSchedEnv wb) now db p
        = (if wb p.id PostStatus.failed then
             dbUpdate db p.id PostStatus.failed
               (some "facebookAuth.publishPost is not a function") now
           else db) := by
  refine ⟨?_, ?_, rfl, ?_⟩
  · intro e h1 h2
    simp [processScheduledPost, h1, h2]
  · intro e h1 h2
    simp [processScheduledPost, h1, h2]
  · simp [processScheduledPost, realSchedEnv, publishPostReal]

/-- Witness for C1 (amended) at the concrete retryable-failure fixture. -/
theorem post_status_rollup_witness :
    processScheduledPost cxEnvRetryable 100 [cxPost] cxPost
      = dbUpdate [cxPost] cxPost.id PostStatus.failed (some "Navigation timeout") 100 :=
  (post_status_rollup cxEnvRetryable 100 [cxPost] cxPost (fun _ _ => true)).1
    "Navigation timeout" rfl rfl

/-- Counterexample to claim C4 as stated.  The interval callback does not
await the running tick and the scheduler keeps no in-flight marker, so a
tick beginning while the previous tick is still mid-publish (its
write-back pending, database unchanged) re-selects the same post: across
the two overlapping ticks the due post with id 1 is dispatched twice. -/
theorem scheduler_double_dispatch_cx :
    List.count 1 (overlappedTickDispatches [cxPost] 100 400) = 2 := rfl

/-- Claim C4 (amended).  Within a single tick each due post is dispatched
exactly once: the tick loop iterates the selection once, and over a
database whose post ids are distinct, a due post contributes exactly one
entry to the dispatched ids.  The exclusion across overlapping ticks
claimed by the spec does not exist (see the counterexample). -/
theorem tick_dispatch_once (db : Db) (now : Nat) (p : SPost)
    (hnd : (db.map SPost.id).Nodup) (hp : p ∈ db)
    (hs : p.status = PostStatus.scheduled) (hd : p.scheduledFor ≤ now) :
    List.count p.id (tickSelectsIds db now) = 1 := by
  have hsub : List.Sublist (tickSelectsIds db now) (db.map SPost.id) :=
    List.Sublist.map SPost.id (List.filter_sublist db)
  have hnd2 : (tickSelectsIds db now).Nodup := List.Nodup.sublist hsub hnd
  have hmem : p.id ∈ tickSelectsIds db now := by
    rw [tickSelectsIds]
    refine List.mem_map_of_mem SPost.id ?_
    rw [selectDue, List.mem_filter]
    exact ⟨hp, by simp only [decide_eq_true_eq]; exact ⟨hs, hd⟩⟩
  exact List.count_eq_one_of_mem hnd2 hmem

/-- Witness for C4 (amended): one tick over two distinct due posts
dispatches post 1 exactly once. -/
theorem tick_dispatch_once_witness :
    List.count 1 (tickSelectsIds [cxPost, cxPostB] 100) = 1 :=
  tick_dispatch_once [cxPost, cxPostB] 100 cxPost (by decide)
    (List.mem_cons_self cxPost [cxPostB]) rfl (by decide)

/-- Claim C8 (confirmed).  `start()` runs one poll at time 0, before any
interval tick (all of which occur at or after one interval length `c`);
and a tick selects a post iff it is in the store with status `scheduled`
and `scheduledFor` at or before the current time — posts in `draft`,
`published` or `failed` status are never selected. -/
theorem scheduler_immediate_poll_selection (c n now : Nat) (db : Db) (p : SPost)
    (hc : 0 < c) :
    ((tickTimes c n).head? = some 0
      ∧ ∀ t ∈ (List.range n).map (fun k => (k + 1) * c), 0 < t ∧ c ≤ t)
    ∧ (p ∈ selectDue db now
        ↔ p ∈ db ∧ p.status = PostStatus.scheduled ∧ p.scheduledFor ≤ now)
    ∧ ((p.status = PostStatus.draft ∨ p.status = PostStatus.published
        ∨ p.status = PostStatus.failed) → p ∉ selectDue db now) := by
  refine ⟨⟨rfl, ?_⟩, ?_, ?_⟩
  · intro t ht
    simp only [List.mem_map, List.mem_range] at ht
    obtain ⟨k, _, rfl⟩ := ht
    have hle : c ≤ (k + 1) * c :=
      calc c = 1 * c := (one_mul c).symm
      _ ≤ (k + 1) * c := Nat.mul_le_mul_right c (by omega)
    exact ⟨Nat.lt_of_lt_of_le hc hle, hle⟩
  · rw [selectDue, List.mem_filter]
    simp [and_assoc]
  · intro hst hmem
    rw [selectDue, List.mem_filter] at hmem
    have h2 := hmem.2
    simp only [decide_eq_true_eq] at h2
    rcases hst with h | h | h <;> rw [h] at h2 <;> simp at h2

/-- Witness for C8: start at interval 300000 ms polls at time 0; the due
fixture post is selected at time 100. -/
theorem scheduler_immediate_poll_selection_witness :
    (tickTimes 300000 2).head? = some 0 ∧ cxPost ∈ selectDue [cxPost] 100 := by
  have h := scheduler_immediate_poll_selection 300000 2 100 [cxPost] cxPost (by norm_num)
  exact ⟨h.1.1, h.2.1.mpr ⟨List.mem_singleton_self _, rfl, by decide⟩⟩

/-- Claim C9 (confirmed).  No failure in a post's publish path can crash
the scheduler or starve the rest of the tick: the publish rejection is
caught per post, and both status writes — the failure-status write-back
included — are fire-and-forget awaits that resolve whatever happens
server-side, so `processScheduledPost` is total and the tick processes
every due post for every environment (publish failing, write-backs
failing, or both); the next tick runs `checkScheduledPosts` again and its
discovery likewise processes all of its due posts. -/
theorem tick_isolated (env : SchedEnv) (now : Nat) (db : Db) :
    (checkScheduledPosts env now db).processed = (selectDue db now).map SPost.id
    ∧ ∀ now2 : Nat,
        (checkScheduledPosts env now2 (checkScheduledPosts env now db).db).processed
          = (selectDue (checkScheduledPosts env now db).db now2).map SPost.id :=
  ⟨processLoop_processed env now (selectDue db now) db,
   fun now2 => processLoop_processed env now2
     (selectDue (checkScheduledPosts env now db).db now2)
     (checkScheduledPosts env now db).db⟩

/-- Counterexample to claim C6 as stated.  With the image fetched and
written to the temp path but the upload step throwing, `uploadImage`
rethrows without removing the temp file (there is no finally); the
artifact is left behind on this exit path. -/
theorem uploadImage_cleanup_cx :
    (uploadImage { inputFound := true, fetchOk := true, uploadOk := false }
      "temp/image-1.jpg" { tempFiles := [] }).2.tempFiles = ["temp/image-1.jpg"]
    ∧ (uploadImage { inputFound := true, fetchOk := true, uploadOk := false }
      "temp/image-1.jpg" { tempFiles := [] }).1
        = Except.error "Failed to upload image" :=
  ⟨rfl, rfl⟩

/-- Claim C6 (amended).  The remote image is fetched into a local temp
file before attaching, and that file is removed on the success path only:
failures before the write leave the filesystem untouched, but a failure
of the upload step after the write leaves the temp file behind — removal
is not guaranteed on every exit path. -/
theorem uploadImage_cleanup (tmp : String) (fs : FsState)
    (htmp : tmp ∉ fs.tempFiles) :
    (uploadImage { inputFound := true, fetchOk := true, uploadOk := true } tmp fs
        = (Except.ok (), fs))
    ∧ (∀ b1 b2, uploadImage { inputFound := false, fetchOk := b1, uploadOk := b2 } tmp fs
        = (Except.error "Image upload input not found", fs))
    ∧ (∀ b2, uploadImage { inputFound := true, fetchOk := false, uploadOk := b2 } tmp fs
        = (Except.error "fetch failed", fs))
    ∧ uploadImage { inputFound := true, fetchOk := true, uploadOk := false } tmp fs
        = (Except.error "Failed to upload image", { tempFiles := tmp :: fs.tempFiles }) := by
  refine ⟨?_, fun b1 b2 => rfl, fun b2 => rfl, rfl⟩
  have hf : fs.tempFiles.filter (fun f => f != tmp) = fs.tempFiles := by
    refine List.filter_eq_self.mpr ?_
    intro f hf2
    simp only [bne_iff_ne, ne_eq, decide_eq_true_eq]
    intro heq
    exact htmp (heq ▸ hf2)
  simp [uploadImage, hf]

/-- Witness for C6 (amended): fresh temp file, successful upload, file
removed. -/
theorem uploadImage_cleanup_witness :
    uploadImage { inputFound := true, fetchOk := true, uploadOk := true }
      "temp/image-2.jpg" { tempFiles := ["other.jpg"] }
      = (Except.ok (), { tempFiles := ["other.jpg"] }) :=
  (uploadImage_cleanup "temp/image-2.jpg" { tempFiles := ["other.jpg"] } (by simp)).1

end PubPipe
